import Mathlib

/-!
Verification of the address-normalization and location-resolution pipeline of
`src/scrape.py` (functions `get_nearest_intersection` and `scrape_incidents`).

Strings are modelled as `String` / `List Char`; Python floats as `Rat`
(the inputs in scope are finite decimals, where float and rational semantics
agree on the comparisons the code performs); network calls as oracles passed
in explicitly; `time.sleep` and the geocoding requests as events in a trace.
Whitespace is modelled as the ASCII whitespace characters, the common core of
Python's `str.strip` and the regex class for whitespace on the data in scope.
-/

/-- ASCII whitespace characters. -/
def wsChar (c : Char) : Bool :=
  c = ' ' || c = '\t' || c = '\n' || c = '\r' || c = '\x0b' || c = '\x0c'

/-- Python `str.strip()`: drop whitespace from both ends. -/
def pyStrip (l : List Char) : List Char :=
  ((l.dropWhile wsChar).reverse.dropWhile wsChar).reverse

/-- Python `str.replace(pat, rep)`: replace every non-overlapping occurrence
of `pat`, scanning left to right.  (`pat` is never empty at the call sites
modelled here; an empty `pat` is returned unchanged.) -/
def replaceAll (pat rep : List Char) : List Char → List Char
  | [] => []
  | c :: cs =>
    if pat ≠ [] ∧ pat.isPrefixOf (c :: cs) then
      rep ++ replaceAll pat rep (cs.drop (pat.length - 1))
    else
      c :: replaceAll pat rep cs
termination_by l => l.length
decreasing_by
  · simp only [List.length_drop, List.length_cons]
    omega
  · simp only [List.length_cons]
    omega

/-- Python `str.split(sep)` with a non-empty separator: split on every
non-overlapping occurrence, scanning left to right, keeping empty pieces. -/
def pySplitAux (sep : List Char) : List Char → List Char → List (List Char)
  | [], acc => [acc.reverse]
  | c :: cs, acc =>
    if sep ≠ [] ∧ sep.isPrefixOf (c :: cs) then
      acc.reverse :: pySplitAux sep (cs.drop (sep.length - 1)) []
    else
      pySplitAux sep cs (c :: acc)
termination_by l _ => l.length
decreasing_by
  · simp only [List.length_drop, List.length_cons]
    omega
  · simp only [List.length_cons]
    omega

/-- Python `str.split(sep)`. -/
def pySplit (sep l : List Char) : List (List Char) :=
  pySplitAux sep l []

/-- Python `sub in s`: substring containment (a match starting at any tail). -/
def pyIn (sub : List Char) : List Char → Bool
  | [] => sub.isEmpty
  | c :: cs => sub.isPrefixOf (c :: cs) || pyIn sub cs

/-- The reversed-string core of the regex match for one-or-more whitespace
characters followed by the literal `RICH`: on the reversed input, `RICH`
reversed, then at least one whitespace character, then greedily all further
whitespace of that run; returns the reversed remainder on a match. -/
def richRev : List Char → Option (List Char)
  | 'H' :: 'C' :: 'I' :: 'R' :: c :: rest =>
    if wsChar c then some (rest.dropWhile wsChar) else none
  | _ => none

/-- Model of `re.sub` of the pattern "whitespace-run then RICH, anchored at end of
string" with the empty replacement, as line 103 of scrape.py applies it.  The
end anchor of the regex also matches just before a single final newline, so
that case is carried explicitly. -/
def subRich (l : List Char) : List Char :=
  match l.reverse with
  | '\n' :: r =>
    match richRev r with
    | some r2 => r2.reverse ++ ['\n']
    | none => l
  | r =>
    match richRev r with
    | some r2 => r2.reverse
    | none => l

/-- Whether the regex of `subRich` matches the string at all (used to state
when `subRich` is the identity). -/
def endsWithWsRich (l : List Char) : Bool :=
  match l.reverse with
  | '\n' :: r => (richRev r).isSome
  | r => (richRev r).isSome

/-- Step-1 cleanup of `scrape_incidents` (lines 102-103): remove `-BLK`,
replace `/` with ` and `, strip one trailing whitespace-run-plus-`RICH`,
trim surrounding whitespace. -/
def cleanup (l : List Char) : List Char :=
  pyStrip (subRich (replaceAll ("-BLK".data) [] l |> replaceAll ("/".data) (" and ".data)))

/-- The step-1 cleanup on `String`. -/
def cleanupS (s : String) : String :=
  ⟨cleanup s.data⟩

/-- Decimal-degree value of a digit run. -/
def digitsVal (l : List Char) : Nat :=
  l.foldl (fun a c => a * 10 + (c.toNat - '0'.toNat)) 0

/-- The exponent suffix of a Python float literal, after the `e`/`E`:
an optional sign and a non-empty digit run consuming the whole rest. -/
def parseExp (l : List Char) : Option Int :=
  match l with
  | '+' :: r => if r ≠ [] ∧ r.all Char.isDigit then some (digitsVal r) else none
  | '-' :: r => if r ≠ [] ∧ r.all Char.isDigit then some (-(digitsVal r : Int)) else none
  | r => if r ≠ [] ∧ r.all Char.isDigit then some (digitsVal r) else none

/-- Python `float(str)` on the decimal grammar: surrounding whitespace, an
optional sign, digits with an optional fractional part (at least one digit in
total), and an optional exponent.  `inf`/`nan` spellings, digit-group
underscores and non-ASCII digits are outside the data in scope and parse as
failure here. -/
def pyFloat (l : List Char) : Option Rat :=
  let l1 := pyStrip l
  let sgn : Rat := match l1 with
    | '-' :: _ => -1
    | _ => 1
  let l2 : List Char := match l1 with
    | '+' :: r => r
    | '-' :: r => r
    | r => r
  let intPart := l2.takeWhile Char.isDigit
  let rest := l2.dropWhile Char.isDigit
  let fracPart : List Char := match rest with
    | '.' :: r => r.takeWhile Char.isDigit
    | _ => []
  let rest2 : List Char := match rest with
    | '.' :: r => r.dropWhile Char.isDigit
    | r => r
  if intPart = [] ∧ fracPart = [] then none
  else
    let mant : Rat := (digitsVal intPart : Rat) + (digitsVal fracPart : Rat) / ((10 : Rat) ^ fracPart.length)
    match rest2 with
    | [] => some (sgn * mant)
    | 'e' :: r => (parseExp r).map (fun e => sgn * mant * (10 : Rat) ^ e)
    | 'E' :: r => (parseExp r).map (fun e => sgn * mant * (10 : Rat) ^ e)
    | _ => none

/-- The list comprehension of `dms_to_dd` (line 113): convert every
`:`-separated part with `float`, failing (`ValueError`) when any part does
not parse. -/
def floatsOf : List (List Char) → Option (List Rat)
  | [] => some []
  | p :: ps =>
    match pyFloat p, floatsOf ps with
    | some v, some vs => some (v :: vs)
    | _, _ => none

/-- Model of `dms_to_dd` (lines 112-117): split on `:`, convert all parts, read the
first three as degrees, minutes and seconds (an `IndexError`, hence failure,
when fewer than three; parts beyond the third are ignored), and negate the
magnitude when the degrees value is negative. -/
def dmsToDD (dms : List Char) : Option Rat :=
  match floatsOf (pySplit (":".data) dms) with
  | none => none
  | some parts =>
    match parts with
    | p0 :: p1 :: p2 :: _ =>
      let dd : Rat := |p0| + p1 / 60 + p2 / 3600
      some (if p0 < 0 then -dd else dd)
    | _ => none

/-- One attempted match of the envelope regex of line 107 at the current
position: the literal `LL(`, then at least one non-comma character up to a
comma, then at least one non-`)` character up to a `)`. -/
def llMatchAt : List Char → Option (List Char × List Char)
  | 'L' :: 'L' :: '(' :: rest =>
    let g1 := rest.takeWhile (· ≠ ',')
    match g1, rest.dropWhile (· ≠ ',') with
    | [], _ => none
    | _, ',' :: r2 =>
      let g2 := r2.takeWhile (· ≠ ')')
      match g2, r2.dropWhile (· ≠ ')') with
      | [], _ => none
      | _, ')' :: _ => some (g1, g2)
      | _, _ => none
    | _, _ => none
  | _ => none

/-- Model of `re.search` of the envelope regex (line 107): the leftmost position with
a match. -/
def llSearch : List Char → Option (List Char × List Char)
  | [] => none
  | c :: cs =>
    match llMatchAt (c :: cs) with
    | some g => some g
    | none => llSearch cs

/-- A latitude/longitude pair in decimal degrees. -/
structure Coords where
  lat : Rat
  lng : Rat
deriving DecidableEq, Repr

/-- The `LL(...)` decoding of lines 106-135: find the envelope, strip each
captured group, convert both groups with `dms_to_dd`; the first group is the
longitude and the second the latitude; any failure (`ValueError` or
`IndexError`, lines 132-135, or no envelope match, lines 136-139) leaves the
record without coordinates. -/
def decodeLL (cleaned : String) : Option Coords :=
  match llSearch cleaned.data with
  | none => none
  | some (g1, g2) =>
    match dmsToDD (pyStrip g1), dmsToDD (pyStrip g2) with
    | some lng, some lat => some { lat := lat, lng := lng }
    | _, _ => none

/-- First element of a Python `split` (Python `s.split(sep)[0]`): the text
before the first occurrence of the separator, or the whole string when the
separator does not occur. -/
def beforeFirst (sep l : List Char) : List Char :=
  (pySplit sep l).headD l

/-- The reversed-string core of the regex of line 152: one whitespace
character, then `NB` or `SB`, anchored at the end. -/
def nbsbRev : List Char → Option (List Char)
  | 'B' :: 'N' :: c :: rest => if wsChar c then some rest else none
  | 'B' :: 'S' :: c :: rest => if wsChar c then some rest else none
  | _ => none

/-- Model of `re.sub` of "one whitespace character then `NB` or `SB`, anchored at end
of string" with the empty replacement (line 152).  As with `subRich`, the end
anchor also matches just before a single final newline. -/
def subNBSB (l : List Char) : List Char :=
  match l.reverse with
  | '\n' :: r =>
    match nbsbRev r with
    | some r2 => r2.reverse ++ ['\n']
    | none => l
  | r =>
    match nbsbRev r with
    | some r2 => r2.reverse
    | none => l

/-- The `BETWEEN`-clause extraction of lines 150-155: the segment between the
first and second `@` (Python `split('@')[1]`), cut before its first
`BETWEEN`, stripped, with one trailing whitespace-plus-`NB`/`SB` removed;
when the string has no `@` at all the `IndexError` fallback returns the whole
cleaned string. -/
def betweenExtract (cleaned : List Char) : List Char :=
  match (pySplit ("@".data) cleaned).drop 1 with
  | seg :: _ => subNBSB (pyStrip (beforeFirst ("BETWEEN".data) seg))
  | [] => cleaned

/-- The classification a cleaned location string receives in
`scrape_incidents` (lines 106-158): the `LL(` branch produces direct
coordinates on a successful decode and otherwise a record with absent
coordinates that skips forward geocoding entirely (lines 132-142); the
remaining branches produce the address fragment submitted to forward
geocoding. -/
inductive NormalizedQuery where
  | direct (c : Coords)
  | failedLL
  | fragment (text : String)
deriving DecidableEq, Repr

/-- The rule ladder of lines 106-158 applied to the cleaned string. -/
def normalizeLoc (cleaned : String) : NormalizedQuery :=
  if cleaned.data.take 3 = "LL(".data then
    match decodeLL cleaned with
    | some c => .direct c
    | none => .failedLL
  else if pyIn (" and ".data) cleaned.data then
    .fragment ⟨beforeFirst (" and ".data) cleaned.data⟩
  else if pyIn ("RICH: @".data) cleaned.data && pyIn ("BETWEEN".data) cleaned.data then
    .fragment ⟨betweenExtract cleaned.data⟩
  else
    .fragment cleaned

/-- The structured address block of a reverse-geocoding response, with the
optional fields the heuristic of `get_nearest_intersection` reads.  A `none`
field is a missing key; an empty string is a present key whose value is
falsy, which the code treats the same way. -/
structure RevResponse where
  road : Option String
  street : Option String
  pedestrian : Option String
  suburb : Option String
deriving DecidableEq, Repr

/-- Python `a or b` for an optional string `a` and a string `b`: `b` when `a`
is missing or empty (falsy), `a`'s value otherwise. -/
def pyOrS (a : Option String) (b : String) : String :=
  match a with
  | some s => if s = "" then b else s
  | none => b

/-- Model of `get_nearest_intersection` (lines 9-46) with the reverse-geocoding
service abstracted as an oracle; `none` from the oracle stands for a raised
exception or a response without an address block, both of which the function
absorbs into an empty label.  The second component counts the
reverse-geocoding network calls the invocation issues. -/
def getNearestIntersection (rev : Rat → Rat → Option RevResponse)
    (lat lon : Option Rat) : String × Nat :=
  match lat, lon with
  | some la, some lo =>
    match rev la lo with
    | none => ("", 1)
    | some address =>
      let road := pyOrS address.road (pyOrS address.street (address.pedestrian.getD ""))
      let suburb := address.suburb.getD ""
      (if road ≠ "" ∧ (road.data.contains '&' || road.data.contains '/') then road
       else if road ≠ "" ∧ suburb ≠ "" then road ++ (", ") ++ suburb
       else if road ≠ "" then road
       else if suburb ≠ "" then suburb
       else "", 1)
  | _, _ => ("", 0)

/-- The external-call oracles of one run: forward geocoding of a full address
(line 166) and reverse geocoding of a coordinate pair (line 19).  `none`
stands for "no match or raised exception", which the code absorbs locally. -/
structure Net where
  forward : String → Option Coords
  georeverse : Rat → Rat → Option RevResponse

/-- The externally observable actions of one run, in order: a
`time.sleep(1.1)` (line 193), a forward-geocoding request (line 166), a
reverse-geocoding request (line 19). -/
inductive Event where
  | sleep (seconds : Rat)
  | forwardCall (query : String)
  | reverseCall
deriving DecidableEq, Repr

/-- One output record (lines 89-99 plus the `lat`/`lng` keys the pipeline
adds); `none` coordinates are the serialized nulls. -/
structure Incident where
  type_general : String
  dispatch_time : String
  box_no : String
  type_specific : String
  street : String
  status : String
  cross_street : String
  nearest_intersection : String
  location_township : String
  lat : Option Rat
  lng : Option Rat
deriving DecidableEq, Repr

/-- Python `str.strip` on `String`. -/
def stripS (s : String) : String :=
  ⟨pyStrip s.data⟩

/-- The incident dictionary as first built from a row's cells
(lines 89-99). -/
def mkBase (cells : List String) : Incident :=
  { type_general := stripS (cells.getD 1 ""),
    dispatch_time := stripS (cells.getD 0 ""),
    box_no := stripS (cells.getD 2 ""),
    type_specific := stripS (cells.getD 4 ""),
    street := stripS (cells.getD 5 ""),
    status := stripS (cells.getD 6 ""),
    cross_street := "",
    nearest_intersection := "",
    location_township := stripS (cells.getD 2 ""),
    lat := none,
    lng := none }

/-- The full forward-geocoding query (line 161). -/
def fullAddress (a : String) : String :=
  a ++ (", Richmond, VA")

/-- The processing of one structurally accepted row (lines 89-193): the
emitted incident and the external-call/sleep events it produces, in order.
The `LL(` branch (lines 106-142) issues a reverse-geocoding call on success,
nothing on failure, and never sleeps (it reaches `continue` before line 193);
the fragment branch issues the forward call, on success the reverse call, and
then sleeps 1.1. -/
def rowOutcome (net : Net) (cells : List String) : Incident × List Event :=
  let base := mkBase cells
  let cleaned := cleanupS base.street
  match normalizeLoc cleaned with
  | .direct c =>
    let label := (getNearestIntersection net.georeverse (some c.lat) (some c.lng)).1
    ({ base with lat := some c.lat, lng := some c.lng, nearest_intersection := label },
     [Event.reverseCall])
  | .failedLL =>
    ({ base with lat := none, lng := none }, [])
  | .fragment a =>
    match net.forward (fullAddress a) with
    | some c =>
      let label := (getNearestIntersection net.georeverse (some c.lat) (some c.lng)).1
      ({ base with lat := some c.lat, lng := some c.lng, nearest_intersection := label },
       [Event.forwardCall (fullAddress a), Event.reverseCall, Event.sleep (11 / 10)])
    | none =>
      ({ base with lat := none, lng := none },
       [Event.forwardCall (fullAddress a), Event.sleep (11 / 10)])

/-- The row filter and loop of lines 85-193: a row with fewer than 7 cells is
skipped, every other row is processed. -/
def processRow (net : Net) (cells : List String) : Option (Incident × List Event) :=
  if 7 ≤ cells.length then some (rowOutcome net cells) else none

/-- The emitted incident sequence of one run over the post-header rows. -/
def scrapeIncidents (net : Net) (rows : List (List String)) : List Incident :=
  rows.filterMap (fun r => (processRow net r).map Prod.fst)

/-- The event trace of one run over the post-header rows. -/
def scrapeEvents (net : Net) (rows : List (List String)) : List Event :=
  (rows.filterMap (fun r => (processRow net r).map Prod.snd)).flatten

/-- Whether an event is a geocoding network call. -/
def isCall : Event → Bool
  | .forwardCall _ => true
  | .reverseCall => true
  | .sleep _ => false

/-- Whether an event is a sleep. -/
def isSleep : Event → Bool
  | .sleep _ => true
  | _ => false

/-- Claim-side reading of the rate-limit discipline, following the claim's
words: every forward- or reverse-geocoding call in the trace is immediately
preceded by a sleep. -/
def sleepBeforeAux : Event → List Event → Bool
  | _, [] => true
  | prev, e :: rest => (!(isCall e) || isSleep prev) && sleepBeforeAux e rest

/-- Claim-side reading, whole trace: the first event is not a call, and every
later call follows a sleep. -/
def claimSleepDiscipline : List Event → Bool
  | [] => true
  | e :: rest => !(isCall e) && sleepBeforeAux e rest

/-- A malformed DMS group, as the code rejects it: some `:`-separated part
fails `float` conversion (`ValueError`), or there are fewer than three parts
(`IndexError` on `parts[2]`). -/
def dmsBadGroup (g : List Char) : Prop :=
  (∃ p ∈ pySplit (":".data) g, pyFloat p = none)
  ∨ (pySplit (":".data) g).length < 3

/-- The characters before the first occurrence of `sep` (the text Python's
`split(sep)[0]` returns): scan left to right and stop at the first position
where `sep` matches. -/
def befo (sep : List Char) : List Char → List Char
  | [] => []
  | c :: cs =>
    if sep ≠ [] ∧ sep.isPrefixOf (c :: cs) then []
    else c :: befo sep cs

/-! Supporting lemmas about the string primitives. -/

theorem pyIn_cons_false {pat : List Char} {c : Char} {cs : List Char}
    (h : pyIn pat (c :: cs) = false) :
    pat.isPrefixOf (c :: cs) = false ∧ pyIn pat cs = false := by
  simpa [pyIn, Bool.or_eq_false_iff] using h

theorem replaceAll_of_pyIn_false (pat rep : List Char) :
    ∀ l : List Char, pyIn pat l = false → replaceAll pat rep l = l := by
  intro l
  induction l with
  | nil => intro _; simp [replaceAll]
  | cons c cs ih =>
    intro h
    obtain ⟨h1, h2⟩ := pyIn_cons_false h
    rw [replaceAll]
    rw [if_neg (by simp [h1])]
    rw [ih h2]

theorem mem_replaceAll_single (q : Char) {rep : List Char} :
    ∀ {l : List Char} {a : Char}, a ∈ replaceAll [q] rep l → a ∈ rep ∨ (a ∈ l ∧ a ≠ q) := by
  intro l
  induction l with
  | nil => intro a h; simp [replaceAll] at h
  | cons c cs ih =>
    intro a h
    rw [replaceAll] at h
    by_cases hp : [q].isPrefixOf (c :: cs)
    · rw [if_pos (by simp [hp])] at h
      have hd : cs.drop ([q].length - 1) = cs := by simp
      rw [hd] at h
      rcases List.mem_append.mp h with h' | h'
      · exact Or.inl h'
      · rcases ih h' with h'' | ⟨hm, hne⟩
        · exact Or.inl h''
        · exact Or.inr ⟨List.mem_cons_of_mem c hm, hne⟩
    · rw [if_neg (by simp [hp])] at h
      rcases List.mem_cons.mp h with h' | h'
      · subst h'
        have hq : a ≠ q := by
          intro he
          apply hp
          subst he
          simp [List.isPrefixOf]
        exact Or.inr ⟨List.mem_cons_self a cs, hq⟩
      · rcases ih h' with h'' | ⟨hm, hne⟩
        · exact Or.inl h''
        · exact Or.inr ⟨List.mem_cons_of_mem c hm, hne⟩

theorem pyIn_singleton_eq_false {q : Char} {l : List Char} (h : q ∉ l) :
    pyIn [q] l = false := by
  induction l with
  | nil => simp [pyIn]
  | cons c cs ih =>
    have hqc : q ≠ c := fun he => h (he ▸ List.mem_cons_self c cs)
    have hm : q ∉ cs := fun hm => h (List.mem_cons_of_mem c hm)
    simp [pyIn, List.isPrefixOf, ih hm]
    intro he
    exact absurd he.symm hqc.symm

theorem dropWhile_dropWhile (p : Char → Bool) :
    ∀ l : List Char, (l.dropWhile p).dropWhile p = l.dropWhile p := by
  intro l
  induction l with
  | nil => rfl
  | cons c cs ih =>
    by_cases hc : p c = true
    · simp [List.dropWhile_cons, hc, ih]
    · simp [List.dropWhile_cons, hc]

theorem head?_dropWhile (p : Char → Bool) :
    ∀ l : List Char, ∀ c ∈ (l.dropWhile p).head?, p c = false := by
  intro l
  induction l with
  | nil => intro c h; simp at h
  | cons x xs ih =>
    intro c h
    by_cases hx : p x = true
    · rw [List.dropWhile_cons, if_pos hx] at h
      exact ih c h
    · rw [List.dropWhile_cons, if_neg hx] at h
      simp at h
      subst h
      simpa using hx

theorem dropWhile_eq_self_of_head? (p : Char → Bool) (l : List Char)
    (h : ∀ c ∈ l.head?, p c = false) : l.dropWhile p = l := by
  cases l with
  | nil => rfl
  | cons c cs =>
    have : p c = false := h c (by simp)
    simp [List.dropWhile_cons, this]

theorem pyStrip_head? (l : List Char) :
    ∀ c ∈ (pyStrip l).head?, wsChar c = false := by
  intro c hc
  unfold pyStrip at hc
  generalize hy : l.dropWhile wsChar = y at hc
  have hzy : (y.reverse.dropWhile wsChar).reverse <+: y := by
    have h1 : y.reverse.dropWhile wsChar <:+ y.reverse := List.dropWhile_suffix wsChar
    have h2 := List.reverse_prefix.mpr h1
    simpa using h2
  rcases hzr : (y.reverse.dropWhile wsChar).reverse with _ | ⟨a, as⟩
  · rw [hzr] at hc
    simp at hc
  · rw [hzr] at hc
    have hac : a = c := by simpa using hc
    rcases hzy with ⟨t, ht⟩
    rw [hzr] at ht
    have hhy : y.head? = some a := by
      rw [← ht]
      rfl
    have hfact := head?_dropWhile wsChar l
    rw [hy] at hfact
    have hws := hfact a (by rw [hhy]; rfl)
    rwa [hac] at hws

theorem pyStrip_getLast_aux (l : List Char) :
    ∀ c ∈ ((pyStrip l).reverse).head?, wsChar c = false := by
  intro c hc
  unfold pyStrip at hc
  rw [List.reverse_reverse] at hc
  exact head?_dropWhile wsChar _ c hc

theorem pyStrip_pyStrip (l : List Char) : pyStrip (pyStrip l) = pyStrip l := by
  have h1 : (pyStrip l).dropWhile wsChar = pyStrip l :=
    dropWhile_eq_self_of_head? wsChar _ (pyStrip_head? l)
  have h2 : ((pyStrip l).reverse).dropWhile wsChar = (pyStrip l).reverse :=
    dropWhile_eq_self_of_head? wsChar _ (pyStrip_getLast_aux l)
  show (((pyStrip l).dropWhile wsChar).reverse.dropWhile wsChar).reverse = pyStrip l
  rw [h1, h2, List.reverse_reverse]

theorem richRev_none_of_isSome_false {r : List Char} (h : (richRev r).isSome = false) :
    richRev r = none := by
  cases hr : richRev r
  · rfl
  · rw [hr] at h
    simp at h

theorem subRich_eq_self {l : List Char} (h : endsWithWsRich l = false) : subRich l = l := by
  unfold endsWithWsRich at h
  split at h
  next r hr =>
    simp only [subRich, hr]
    rw [richRev_none_of_isSome_false h]
  next r hr =>
    unfold subRich
    split
    next r' hr' => exact absurd hr' (by intro hx; exact hr r' hx)
    next r' hr' =>
      rw [richRev_none_of_isSome_false h]

theorem richRev_subset {r r2 : List Char} (h : richRev r = some r2) : r2 ⊆ r := by
  unfold richRev at h
  split at h
  next c rest =>
    split at h
    · have hr2 : r2 = rest.dropWhile wsChar := by
        injection h with h'
        exact h'.symm
      subst hr2
      intro a ha
      have h1 : a ∈ rest := ((List.dropWhile_suffix wsChar).subset) ha
      simp [h1]
    · exact absurd h (by simp)
  next => exact absurd h (by simp)

theorem mem_subRich {l : List Char} {a : Char} (h : a ∈ subRich l) : a ∈ l := by
  unfold subRich at h
  split at h
  next r hr =>
    cases h2 : richRev r with
    | some r2 =>
      rw [h2] at h
      rcases List.mem_append.mp h with h3 | h3
      · have : a ∈ r := richRev_subset h2 (List.mem_reverse.mp h3)
        have : a ∈ l.reverse := by
          rw [hr]
          exact List.mem_cons_of_mem _ this
        exact List.mem_reverse.mp this
      · have ha : a = '\n' := by simpa using h3
        have hmem : a ∈ l.reverse := by
          rw [hr, ha]
          exact List.mem_cons_self _ _
        exact List.mem_reverse.mp hmem
    | none =>
      rw [h2] at h
      exact h
  next r hr =>
    cases h2 : richRev l.reverse with
    | some r2 =>
      rw [h2] at h
      have : a ∈ l.reverse := richRev_subset h2 (List.mem_reverse.mp h)
      exact List.mem_reverse.mp this
    | none =>
      rw [h2] at h
      exact h

theorem mem_pyStrip {l : List Char} {a : Char} (h : a ∈ pyStrip l) : a ∈ l := by
  unfold pyStrip at h
  have h1 : a ∈ ((l.dropWhile wsChar).reverse).dropWhile wsChar := List.mem_reverse.mp h
  have h2 : a ∈ (l.dropWhile wsChar).reverse := (List.dropWhile_suffix wsChar).subset h1
  have h3 : a ∈ l.dropWhile wsChar := List.mem_reverse.mp h2
  exact (List.dropWhile_suffix wsChar).subset h3

theorem slash_not_mem_cleanup (l : List Char) : '/' ∉ cleanup l := by
  intro hmem
  have h1 : '/' ∈ subRich (replaceAll ("/".data) (" and ".data) (replaceAll ("-BLK".data) [] l)) :=
    mem_pyStrip hmem
  have h2 : '/' ∈ replaceAll ("/".data) (" and ".data) (replaceAll ("-BLK".data) [] l) :=
    mem_subRich h1
  rcases mem_replaceAll_single '/' h2 with h3 | ⟨_, h3⟩
  · revert h3
    decide
  · exact h3 rfl

/-- C5 (counterexample): step-1 cleanup is not idempotent.  Stripping the
trailing ` RICH` suffix can expose another ` RICH` suffix, which only a
second application removes: `"A RICH RICH"` cleans to `"A RICH"`, and
cleaning again gives `"A"`. -/
theorem cleanup_not_idempotent_counterexample :
    cleanupS ("A RICH RICH") = "A RICH"
    ∧ cleanupS (cleanupS ("A RICH RICH")) = "A"
    ∧ ("A" : String) ≠ "A RICH" := by
  refine ⟨by with_unfolding_all rfl, by with_unfolding_all rfl, by decide⟩

/-- C5 (amended): step-1 cleanup is idempotent on every input whose cleaned
form neither contains `-BLK` nor still ends in a whitespace-run-plus-`RICH`
suffix; on such inputs (which removal can re-expose, as the counterexample
shows) a second application is the identity.  The slash replacement and the
final trim can never re-fire on cleaned output. -/
theorem cleanup_idempotent_amended (s : String)
    (hb : pyIn ("-BLK".data) (cleanupS s).data = false)
    (hr : endsWithWsRich (cleanupS s).data = false) :
    cleanupS (cleanupS s) = cleanupS s := by
  have hb' : pyIn ("-BLK".data) (cleanup s.data) = false := hb
  have hr' : endsWithWsRich (cleanup s.data) = false := hr
  show (⟨cleanup (cleanup s.data)⟩ : String) = ⟨cleanup s.data⟩
  have hmain : cleanup (cleanup s.data) = cleanup s.data := by
    have step1 : replaceAll ("-BLK".data) [] (cleanup s.data) = cleanup s.data :=
      replaceAll_of_pyIn_false _ _ _ hb'
    have hsl : pyIn ("/".data) (cleanup s.data) = false :=
      pyIn_singleton_eq_false (slash_not_mem_cleanup s.data)
    have step2 : replaceAll ("/".data) (" and ".data) (cleanup s.data) = cleanup s.data :=
      replaceAll_of_pyIn_false _ _ _ hsl
    have step3 : subRich (cleanup s.data) = cleanup s.data := subRich_eq_self hr'
    have step4 : pyStrip (cleanup s.data) = cleanup s.data :=
      pyStrip_pyStrip (subRich (replaceAll ("/".data) (" and ".data)
        (replaceAll ("-BLK".data) [] s.data)))
    calc cleanup (cleanup s.data)
        = pyStrip (subRich (replaceAll ("/".data) (" and ".data)
            (replaceAll ("-BLK".data) [] (cleanup s.data)))) := rfl
      _ = pyStrip (subRich (cleanup s.data)) := by rw [step1, step2]
      _ = pyStrip (cleanup s.data) := by rw [step3]
      _ = cleanup s.data := step4
  rw [hmain]

/-- C5 (witness): the amended idempotence at the spec's own cleanup example,
`"123-BLK MAIN ST RICH"`, whose cleaned form `"123 MAIN ST"` satisfies both
side conditions. -/
theorem cleanup_idempotent_witness :
    pyIn ("-BLK".data) (cleanupS ("123-BLK MAIN ST RICH")).data = false
    ∧ endsWithWsRich (cleanupS ("123-BLK MAIN ST RICH")).data = false
    ∧ cleanupS (cleanupS ("123-BLK MAIN ST RICH")) = cleanupS ("123-BLK MAIN ST RICH") :=
  ⟨by with_unfolding_all rfl, by with_unfolding_all rfl,
   cleanup_idempotent_amended ("123-BLK MAIN ST RICH")
     (by with_unfolding_all rfl) (by with_unfolding_all rfl)⟩

/-- C10: the DMS decoder takes the sign from the numeric value of the degrees
token, not its text, so the group `-0:30:0` loses its sign: the decoder
returns the positive `30/60 = 1/2` instead of `-1/2`, and through the full
`LL(...)` decode the longitude comes out positive. -/
theorem dms_minus_zero_loses_sign :
    dmsToDD ("-0:30:0".data) = some (1 / 2)
    ∧ decodeLL ("LL(-0:30:0,10:0:0)") = some { lat := 10, lng := 1 / 2 }
    ∧ (0 : Rat) < 1 / 2
    ∧ dmsToDD ("-0:30:0".data) ≠ some (-(1 / 2)) := by
  refine ⟨by with_unfolding_all rfl, by with_unfolding_all rfl, by norm_num, ?_⟩
  intro h
  have h2 : dmsToDD ("-0:30:0".data) = some (1 / 2) := by with_unfolding_all rfl
  rw [h2] at h
  have h3 : (1 / 2 : Rat) = -(1 / 2) := by injection h
  norm_num at h3

/-- C1 (counterexample): a cleaned string that starts with `LL(` and fails to
decode does not become an `AddressFragment`; the record keeps absent
coordinates and forward geocoding is skipped, so even a forward oracle that
would succeed is never consulted (the row's event list is empty). -/
theorem ll_failure_counterexample :
    normalizeLoc ("LL(") = NormalizedQuery.failedLL
    ∧ NormalizedQuery.failedLL ≠ NormalizedQuery.fragment ("LL(")
    ∧ (rowOutcome
        { forward := fun _ => some { lat := 1, lng := 2 }, georeverse := fun _ _ => none }
        ["a", "b", "c", "d", "e", "LL(", "f"]).2 = [] := by
  refine ⟨by with_unfolding_all rfl, by simp, by with_unfolding_all rfl⟩

/-- C1 (amended): for every cleaned location string that starts with `LL(`
and whose coordinate decode fails, the Normalizer does not fall back to an
`AddressFragment`; the record is emitted with `lat`/`lng` absent and no
forward-geocoding call is attempted (lines 132-142 append the incident and
`continue` past the geocoding step). -/
theorem ll_failure_skips_geocoding_amended (net : Net) (cells : List String)
    (hLL : (cleanupS (mkBase cells).street).data.take 3 = "LL(".data)
    (hfail : decodeLL (cleanupS (mkBase cells).street) = none) :
    normalizeLoc (cleanupS (mkBase cells).street) = NormalizedQuery.failedLL
    ∧ (rowOutcome net cells).1.lat = none
    ∧ (rowOutcome net cells).1.lng = none
    ∧ (rowOutcome net cells).2 = [] := by
  have hnorm : normalizeLoc (cleanupS (mkBase cells).street) = NormalizedQuery.failedLL := by
    unfold normalizeLoc
    rw [if_pos hLL, hfail]
  have houtcome : rowOutcome net cells = ({ mkBase cells with lat := none, lng := none }, []) := by
    simp only [rowOutcome]
    rw [hnorm]
  refine ⟨hnorm, ?_, ?_, ?_⟩ <;> simp [houtcome]

/-- C1 (witness): the amended statement at the concrete row whose location
cell is `"LL("`, against an oracle whose forward geocoding would succeed if
it were ever called. -/
theorem ll_failure_skips_geocoding_witness :
    normalizeLoc (cleanupS (mkBase ["a", "b", "c", "d", "e", "LL(", "f"]).street) =
      NormalizedQuery.failedLL
    ∧ (rowOutcome
        { forward := fun _ => some { lat := 3, lng := 4 }, georeverse := fun _ _ => none }
        ["a", "b", "c", "d", "e", "LL(", "f"]).1.lat = none
    ∧ (rowOutcome
        { forward := fun _ => some { lat := 3, lng := 4 }, georeverse := fun _ _ => none }
        ["a", "b", "c", "d", "e", "LL(", "f"]).1.lng = none
    ∧ (rowOutcome
        { forward := fun _ => some { lat := 3, lng := 4 }, georeverse := fun _ _ => none }
        ["a", "b", "c", "d", "e", "LL(", "f"]).2 = [] :=
  ll_failure_skips_geocoding_amended
    { forward := fun _ => some { lat := 3, lng := 4 }, georeverse := fun _ _ => none }
    (["a", "b", "c", "d", "e", "LL(", "f"])
    (by with_unfolding_all rfl) (by with_unfolding_all rfl)

theorem floatsOf_eq_none_iff :
    ∀ ps : List (List Char), floatsOf ps = none ↔ ∃ p ∈ ps, pyFloat p = none := by
  intro ps
  induction ps with
  | nil => simp [floatsOf]
  | cons p ps ih =>
    constructor
    · intro h
      rw [floatsOf] at h
      cases hp : pyFloat p with
      | none => exact ⟨p, List.mem_cons_self p ps, hp⟩
      | some v =>
        rw [hp] at h
        cases hps : floatsOf ps with
        | none =>
          obtain ⟨q, hq, hqn⟩ := ih.mp hps
          exact ⟨q, List.mem_cons_of_mem p hq, hqn⟩
        | some vs => rw [hps] at h; simp at h
    · rintro ⟨q, hq, hqn⟩
      rw [floatsOf]
      rcases List.mem_cons.mp hq with rfl | hq'
      · rw [hqn]
      · cases hp : pyFloat p with
        | none => rfl
        | some v =>
          rw [ih.mpr ⟨q, hq', hqn⟩]

theorem floatsOf_length :
    ∀ {ps : List (List Char)} {vs : List Rat}, floatsOf ps = some vs → vs.length = ps.length := by
  intro ps
  induction ps with
  | nil => intro vs h; rw [floatsOf] at h; injection h with h'; rw [← h']; rfl
  | cons p ps ih =>
    intro vs h
    rw [floatsOf] at h
    cases hp : pyFloat p with
    | none => rw [hp] at h; simp at h
    | some v =>
      rw [hp] at h
      cases hps : floatsOf ps with
      | none => rw [hps] at h; simp at h
      | some ws =>
        rw [hps] at h
        injection h with h'
        rw [← h']
        simp [ih hps]

theorem dmsToDD_eq_none_iff (g : List Char) :
    dmsToDD g = none ↔ dmsBadGroup g := by
  unfold dmsToDD dmsBadGroup
  cases hf : floatsOf (pySplit (":".data) g) with
  | none =>
    simp only []
    constructor
    · intro _
      exact Or.inl ((floatsOf_eq_none_iff _).mp hf)
    · intro _
      trivial
  | some vs =>
    have hlen : vs.length = (pySplit (":".data) g).length := floatsOf_length hf
    constructor
    · intro h
      match vs, h with
      | [], _ => exact Or.inr (by rw [← hlen]; simp)
      | [v0], _ => exact Or.inr (by rw [← hlen]; simp)
      | [v0, v1], _ => exact Or.inr (by rw [← hlen]; simp)
      | v0 :: v1 :: v2 :: rest, h => simp at h
    · intro h
      rcases h with h | h
      · obtain ⟨p, hp, hpn⟩ := h
        have : floatsOf (pySplit (":".data) g) = none :=
          (floatsOf_eq_none_iff _).mpr ⟨p, hp, hpn⟩
        rw [this] at hf
        cases hf
      · rw [← hlen] at h
        match vs, h with
        | [], _ => rfl
        | [v0], _ => rfl
        | [v0, v1], _ => rfl
        | v0 :: v1 :: v2 :: rest, h => simp at h; omega

/-- C3 (counterexample): a group with four numeric parts is not rejected.
`LL(1:2:3:4,5:6:7)` decodes successfully even though its first group has
four `:`-separated parts, the fourth being silently ignored. -/
theorem decode_accepts_four_part_group :
    (decodeLL ("LL(1:2:3:4,5:6:7)")).isSome = true
    ∧ (pySplit (":".data) ("1:2:3:4".data)).length = 4
    ∧ decodeLL ("LL(1:2:3:4,5:6:7)") =
        some { lat := 5 + 6 / 60 + 7 / 3600, lng := 1 + 2 / 60 + 3 / 3600 } := by
  refine ⟨by with_unfolding_all rfl, by with_unfolding_all rfl, by with_unfolding_all rfl⟩

/-- C3 (amended): for every input, the `LL` decode fails exactly when the
envelope regex does not match, or some `:`-separated part of a captured
(stripped) group fails `float` conversion, or a group has fewer than three
parts.  A group with more than three parts all numeric is accepted, the
extras ignored; no failure is ever an uncaught exception (the decode is the
total function `decodeLL`). -/
theorem decode_failure_characterization (s : String) :
    decodeLL s = none ↔
      (llSearch s.data = none ∨
       ∃ g1 g2, llSearch s.data = some (g1, g2) ∧
         (dmsBadGroup (pyStrip g1) ∨ dmsBadGroup (pyStrip g2))) := by
  cases hs : llSearch s.data with
  | none =>
    have hd : decodeLL s = none := by
      unfold decodeLL
      rw [hs]
    simp [hd]
  | some g =>
    obtain ⟨g1, g2⟩ := g
    have hd : decodeLL s =
        (match dmsToDD (pyStrip g1), dmsToDD (pyStrip g2) with
          | some lng, some lat => some { lat := lat, lng := lng }
          | _, _ => none) := by
      unfold decodeLL
      rw [hs]
    rw [hd]
    constructor
    · intro h
      refine Or.inr ⟨g1, g2, rfl, ?_⟩
      cases h1 : dmsToDD (pyStrip g1) with
      | none => exact Or.inl ((dmsToDD_eq_none_iff _).mp h1)
      | some v1 =>
        cases h2 : dmsToDD (pyStrip g2) with
        | none => exact Or.inr ((dmsToDD_eq_none_iff _).mp h2)
        | some v2 =>
          rw [h1, h2] at h
          simp at h
    · rintro (h | ⟨h1', h2', heq, hbad⟩)
      · simp at h
      · simp at heq
        obtain ⟨rfl, rfl⟩ := heq
        rcases hbad with hb | hb
        · rw [(dmsToDD_eq_none_iff _).mpr hb]
        · rw [(dmsToDD_eq_none_iff _).mpr hb]
          cases dmsToDD (pyStrip g1) <;> rfl

theorem takeWhile_append_all (p : Char → Bool) (xs : List Char) (y : Char) (ys : List Char)
    (hx : ∀ a ∈ xs, p a = true) (hy : p y = false) :
    (xs ++ y :: ys).takeWhile p = xs := by
  induction xs with
  | nil => simp [List.takeWhile_cons, hy]
  | cons a as ih =>
    have ha : p a = true := hx a (List.mem_cons_self a as)
    simp only [List.cons_append, List.takeWhile_cons, ha, if_true]
    rw [ih (fun b hb => hx b (List.mem_cons_of_mem a hb))]

theorem dropWhile_append_all (p : Char → Bool) (xs : List Char) (y : Char) (ys : List Char)
    (hx : ∀ a ∈ xs, p a = true) (hy : p y = false) :
    (xs ++ y :: ys).dropWhile p = y :: ys := by
  induction xs with
  | nil => simp [List.dropWhile_cons, hy]
  | cons a as ih =>
    have ha : p a = true := hx a (List.mem_cons_self a as)
    simp only [List.cons_append, List.dropWhile_cons, ha, if_true]
    exact ih (fun b hb => hx b (List.mem_cons_of_mem a hb))

theorem llMatchAt_wellformed (a : Char) (as : List Char) (b : Char) (bs : List Char)
    (h1 : ∀ x ∈ a :: as, x ≠ ',') (h2 : ∀ x ∈ b :: bs, x ≠ ')') :
    llMatchAt ('L' :: 'L' :: '(' :: ((a :: as) ++ ',' :: ((b :: bs) ++ [')']))) =
      some (a :: as, b :: bs) := by
  have ht1 : ((a :: as) ++ ',' :: ((b :: bs) ++ [')'])).takeWhile (· ≠ ',') = a :: as :=
    takeWhile_append_all _ _ _ _ (fun x hx => by simpa using h1 x hx) (by simp)
  have ht2 : ((a :: as) ++ ',' :: ((b :: bs) ++ [')'])).dropWhile (· ≠ ',') =
      ',' :: ((b :: bs) ++ [')']) :=
    dropWhile_append_all _ _ _ _ (fun x hx => by simpa using h1 x hx) (by simp)
  have ht3 : ((b :: bs) ++ [')']).takeWhile (· ≠ ')') = b :: bs :=
    takeWhile_append_all _ _ _ _ (fun x hx => by simpa using h2 x hx) (by simp)
  have ht4 : ((b :: bs) ++ [')']).dropWhile (· ≠ ')') = [')'] :=
    dropWhile_append_all _ _ _ _ (fun x hx => by simpa using h2 x hx) (by simp)
  unfold llMatchAt
  simp only [ht1, ht2, ht3, ht4]

theorem dmsToDD_of_floats {g : List Char} {d m sec : Rat}
    (h : floatsOf (pySplit (":".data) g) = some [d, m, sec]) :
    dmsToDD g = some (if d < 0 then -(|d| + m / 60 + sec / 3600) else |d| + m / 60 + sec / 3600) := by
  unfold dmsToDD
  rw [h]

/-- C4: for a well-formed `LL(lon_dms,lat_dms)` input whose two groups are
three-part numeric `D:M:S` strings, the decode returns, for each group,
`|D| + M/60 + S/3600` negated exactly when the degrees value is negative,
assigning the first group to the longitude and the second to the latitude;
in particular `LL(-77:25:30,37:32:12)` gives longitude `-77.425` and latitude
`11261/300 ≈ 37.5367`, each within `1/1000` of the spec's quoted values. -/
theorem decode_wellformed_dms (g1 g2 : String) (d1 m1 s1 d2 m2 s2 : Rat)
    (h1 : floatsOf (pySplit (":".data) g1.data) = some [d1, m1, s1])
    (h2 : floatsOf (pySplit (":".data) g2.data) = some [d2, m2, s2])
    (hstrip1 : pyStrip g1.data = g1.data) (hstrip2 : pyStrip g2.data = g2.data)
    (hc1 : ∀ x ∈ g1.data, x ≠ ',') (hc2 : ∀ x ∈ g2.data, x ≠ ')')
    (hn1 : g1.data ≠ []) (hn2 : g2.data ≠ []) :
    decodeLL ("LL(" ++ g1 ++ "," ++ g2 ++ ")") =
      some { lat := if d2 < 0 then -(|d2| + m2 / 60 + s2 / 3600) else |d2| + m2 / 60 + s2 / 3600,
             lng := if d1 < 0 then -(|d1| + m1 / 60 + s1 / 3600) else |d1| + m1 / 60 + s1 / 3600 }
    ∧ decodeLL ("LL(-77:25:30,37:32:12)") = some { lat := 11261 / 300, lng := -(3097 / 40) }
    ∧ |(11261 / 300 : Rat) - (37.5367 : Rat)| < 1 / 1000
    ∧ |(-(3097 / 40) : Rat) - (-77.425 : Rat)| < 1 / 1000 := by
  refine ⟨?_, by with_unfolding_all rfl, by rw [abs_lt]; constructor <;> norm_num,
    by rw [abs_lt]; constructor <;> norm_num⟩
  obtain ⟨a, as, ha⟩ := List.exists_cons_of_ne_nil hn1
  obtain ⟨b, bs, hb⟩ := List.exists_cons_of_ne_nil hn2
  have hdata : ("LL(" ++ g1 ++ "," ++ g2 ++ ")" : String).data =
      'L' :: 'L' :: '(' :: (g1.data ++ ',' :: (g2.data ++ [')'])) := by
    have h3 : ("LL(" : String).data = ['L', 'L', '('] := by decide
    have h4 : ("," : String).data = [','] := by decide
    have h5 : (")" : String).data = [')'] := by decide
    simp [String.data_append, h3, h4, h5]
  have hmatch : llMatchAt ('L' :: 'L' :: '(' :: (g1.data ++ ',' :: (g2.data ++ [')']))) =
      some (g1.data, g2.data) := by
    rw [ha, hb]
    exact llMatchAt_wellformed a as b bs (ha ▸ hc1) (hb ▸ hc2)
  have hsearch : llSearch (("LL(" ++ g1 ++ "," ++ g2 ++ ")" : String).data) =
      some (g1.data, g2.data) := by
    rw [hdata]
    unfold llSearch
    rw [hmatch]
  have hstep : decodeLL ("LL(" ++ g1 ++ "," ++ g2 ++ ")") =
      (match dmsToDD (pyStrip g1.data), dmsToDD (pyStrip g2.data) with
        | some lng, some lat => some { lat := lat, lng := lng }
        | _, _ => none) := by
    unfold decodeLL
    rw [hsearch]
  rw [hstep, hstrip1, hstrip2, dmsToDD_of_floats h1, dmsToDD_of_floats h2]

/-- C4 (witness): the decode at the spec's example coordinates. -/
theorem decode_wellformed_dms_witness :
    decodeLL ("LL(" ++ "-77:25:30" ++ "," ++ "37:32:12" ++ ")") =
      some { lat := if (37 : Rat) < 0 then -(|(37 : Rat)| + 32 / 60 + 12 / 3600)
                    else |(37 : Rat)| + 32 / 60 + 12 / 3600,
             lng := if (-77 : Rat) < 0 then -(|(-77 : Rat)| + 25 / 60 + 30 / 3600)
                    else |(-77 : Rat)| + 25 / 60 + 30 / 3600 }
    ∧ decodeLL ("LL(-77:25:30,37:32:12)") = some { lat := 11261 / 300, lng := -(3097 / 40) }
    ∧ |(11261 / 300 : Rat) - (37.5367 : Rat)| < 1 / 1000
    ∧ |(-(3097 / 40) : Rat) - (-77.425 : Rat)| < 1 / 1000 :=
  decode_wellformed_dms ("-77:25:30") ("37:32:12") (-77) 25 30 37 32 12
    (by with_unfolding_all rfl) (by with_unfolding_all rfl)
    (by decide) (by decide) (by decide) (by decide) (by decide) (by decide)

/-- C6: the intersection-label heuristic over the structured address fields.
With both coordinates present and a structured response, the label is: the
road candidate (first non-empty of `road`, `street`, `pedestrian`) verbatim
when it contains `&` or `/`; else `"road, suburb"` when both are non-empty;
else the road alone, else the suburb alone, else the empty string.  A missing
coordinate short-circuits to the empty label with zero reverse-geocoding
calls issued. -/
theorem intersection_label_heuristic :
    (∀ (address : RevResponse) (la lo : Rat),
      getNearestIntersection (fun _ _ => some address) (some la) (some lo) =
        ((let road := pyOrS address.road (pyOrS address.street (address.pedestrian.getD ""));
          let suburb := address.suburb.getD "";
          if road.data.contains '&' || road.data.contains '/' then road
          else if road ≠ "" ∧ suburb ≠ "" then road ++ (", ") ++ suburb
          else if road ≠ "" then road
          else if suburb ≠ "" then suburb
          else ""), 1))
    ∧ (∀ (rev : Rat → Rat → Option RevResponse) (lo : Option Rat),
        getNearestIntersection rev none lo = ("", 0))
    ∧ (∀ (rev : Rat → Rat → Option RevResponse) (la : Option Rat),
        getNearestIntersection rev la none = ("", 0)) := by
  refine ⟨?_, ?_, ?_⟩
  · intro address la lo
    simp only [getNearestIntersection]
    by_cases hroad : pyOrS address.road (pyOrS address.street (address.pedestrian.getD "")) = ""
    · rw [hroad]
      simp
    · by_cases hc : ((pyOrS address.road (pyOrS address.street (address.pedestrian.getD ""))).data.contains '&'
          || (pyOrS address.road (pyOrS address.street (address.pedestrian.getD ""))).data.contains '/') = true
      · simp [hroad, hc]
      · simp at hc
        simp [hc]
  · intro rev lo
    rfl
  · intro rev la
    cases la <;> rfl

/-- C7 (counterexample): the `BETWEEN` rule does not require the marker
`RICH: @` to be followed later by `BETWEEN`; both substrings anywhere
suffice.  In `"BETWEEN RICH: @X"` the only `BETWEEN` precedes the marker
(the text after the marker, `"X"`, contains none), yet the rule fires and
extracts `"X"` instead of defaulting to the whole cleaned string. -/
theorem between_clause_counterexample :
    pyIn ("RICH: @".data) ("BETWEEN RICH: @X".data) = true
    ∧ pyIn ("BETWEEN".data) ((pySplit ("RICH: @".data) ("BETWEEN RICH: @X".data)).getD 1 []) = false
    ∧ normalizeLoc ("BETWEEN RICH: @X") = NormalizedQuery.fragment ("X")
    ∧ NormalizedQuery.fragment ("X") ≠ NormalizedQuery.fragment ("BETWEEN RICH: @X") := by
  refine ⟨by with_unfolding_all rfl, by with_unfolding_all rfl, by with_unfolding_all rfl, by simp⟩

/-- C7 (amended): the rule fires whenever the cleaned string (not in the
`LL(` branch and without ` and `) contains both `RICH: @` and `BETWEEN` as
substrings, in either order; the fragment is the segment between the first
and second `@`, cut before its first `BETWEEN`, trimmed, with one trailing
whitespace-plus-`NB`/`SB` token removed, as the concrete anchors show. -/
theorem between_clause_amended (s : String)
    (hLL : s.data.take 3 ≠ "LL(".data)
    (hand : pyIn (" and ".data) s.data = false)
    (hm : pyIn ("RICH: @".data) s.data = true)
    (hb : pyIn ("BETWEEN".data) s.data = true) :
    normalizeLoc s = NormalizedQuery.fragment ⟨betweenExtract s.data⟩
    ∧ normalizeLoc ("RICH: @BROAD ST BETWEEN 1ST ST & 2ND ST NB") =
        NormalizedQuery.fragment ("BROAD ST")
    ∧ normalizeLoc ("RICH: @MAIN ST NB BETWEEN A & B") = NormalizedQuery.fragment ("MAIN ST")
    ∧ normalizeLoc ("RICH: @A@B BETWEEN X") = NormalizedQuery.fragment ("A") := by
  refine ⟨?_, by with_unfolding_all rfl, by with_unfolding_all rfl, by with_unfolding_all rfl⟩
  unfold normalizeLoc
  rw [if_neg hLL, if_neg (by simp [hand]), if_pos (by simp [hm, hb])]

/-- C7 (witness): the amended rule at `"RICH: @A BETWEEN B"`. -/
theorem between_clause_witness :
    normalizeLoc ("RICH: @A BETWEEN B") =
      NormalizedQuery.fragment ⟨betweenExtract ("RICH: @A BETWEEN B").data⟩
    ∧ normalizeLoc ("RICH: @BROAD ST BETWEEN 1ST ST & 2ND ST NB") =
        NormalizedQuery.fragment ("BROAD ST")
    ∧ normalizeLoc ("RICH: @MAIN ST NB BETWEEN A & B") = NormalizedQuery.fragment ("MAIN ST")
    ∧ normalizeLoc ("RICH: @A@B BETWEEN X") = NormalizedQuery.fragment ("A") :=
  between_clause_amended ("RICH: @A BETWEEN B")
    (by decide) (by decide) (by decide) (by decide)

theorem pySplitAux_head (sep : List Char) :
    ∀ (l acc : List Char), ∃ t, pySplitAux sep l acc = (acc.reverse ++ befo sep l) :: t := by
  intro l
  induction l with
  | nil =>
    intro acc
    exact ⟨[], by rw [pySplitAux, befo, List.append_nil]⟩
  | cons c cs ih =>
    intro acc
    by_cases hp : sep ≠ [] ∧ sep.isPrefixOf (c :: cs)
    · refine ⟨pySplitAux sep (cs.drop (sep.length - 1)) [], ?_⟩
      rw [pySplitAux, if_pos hp, befo, if_pos hp, List.append_nil]
    · obtain ⟨t, ht⟩ := ih (c :: acc)
      refine ⟨t, ?_⟩
      rw [pySplitAux, if_neg hp, ht, befo, if_neg hp]
      simp

theorem beforeFirst_eq_befo (sep l : List Char) : beforeFirst sep l = befo sep l := by
  obtain ⟨t, ht⟩ := pySplitAux_head sep l []
  unfold beforeFirst pySplit
  rw [ht]
  simp

theorem befo_append_sep {sep : List Char} (hsep : sep ≠ []) :
    ∀ {l : List Char}, pyIn sep l = true → ∃ rest, l = befo sep l ++ (sep ++ rest) := by
  intro l
  induction l with
  | nil =>
    intro h
    rw [pyIn] at h
    exact absurd (List.isEmpty_iff.mp h) hsep
  | cons c cs ih =>
    intro h
    rw [pyIn] at h
    by_cases hp : sep.isPrefixOf (c :: cs)
    · obtain ⟨rest, hrest⟩ := List.isPrefixOf_iff_prefix.mp hp
      refine ⟨rest, ?_⟩
      rw [befo, if_pos ⟨hsep, hp⟩, List.nil_append, hrest]
    · have h2 : pyIn sep cs = true := by
        rcases Bool.or_eq_true_iff.mp h with h' | h'
        · exact absurd h' hp
        · exact h'
      obtain ⟨rest, hrest⟩ := ih h2
      refine ⟨rest, ?_⟩
      rw [befo, if_neg (by intro hx; exact hp hx.2), List.cons_append, ← hrest]

/-- C8: a cleaned string outside the `LL(` branch that contains ` and `
produces as fragment exactly the text before the first occurrence of ` and `
(the cross street is discarded): the string decomposes as that prefix
followed by ` and ` and the remainder.  Concretely, raw `"MAIN ST/BROAD ST"`
cleans to `"MAIN ST and BROAD ST"` and yields fragment `"MAIN ST"`, and a
double intersection splits at the first occurrence. -/
theorem intersection_split_takes_first_street (s : String)
    (hLL : s.data.take 3 ≠ "LL(".data)
    (hand : pyIn (" and ".data) s.data = true) :
    normalizeLoc s = NormalizedQuery.fragment ⟨befo (" and ".data) s.data⟩
    ∧ (∃ rest, s.data = befo (" and ".data) s.data ++ (" and ".data ++ rest))
    ∧ normalizeLoc (cleanupS ("MAIN ST/BROAD ST")) = NormalizedQuery.fragment ("MAIN ST")
    ∧ normalizeLoc ("A and B and C") = NormalizedQuery.fragment ("A") := by
  refine ⟨?_, befo_append_sep (by decide) hand,
    by with_unfolding_all rfl, by with_unfolding_all rfl⟩
  unfold normalizeLoc
  rw [if_neg hLL, if_pos (by simp [hand]), beforeFirst_eq_befo]

/-- C8 (witness): the split at `"MAIN ST and BROAD ST"`. -/
theorem intersection_split_witness :
    normalizeLoc ("MAIN ST and BROAD ST") =
      NormalizedQuery.fragment ⟨befo (" and ".data) ("MAIN ST and BROAD ST").data⟩
    ∧ (∃ rest, ("MAIN ST and BROAD ST").data =
        befo (" and ".data) ("MAIN ST and BROAD ST").data ++ (" and ".data ++ rest))
    ∧ normalizeLoc (cleanupS ("MAIN ST/BROAD ST")) = NormalizedQuery.fragment ("MAIN ST")
    ∧ normalizeLoc ("A and B and C") = NormalizedQuery.fragment ("A") :=
  intersection_split_takes_first_street ("MAIN ST and BROAD ST") (by decide) (by decide)

/-- C2 (counterexample): the rate-limit sleep is not taken strictly before
each geocoding call.  A one-row run over a plain address issues its forward
call as the very first event, with the sleep after it; a one-row run over a
valid `LL(...)` location issues a reverse-geocoding call with no sleep
anywhere in the trace.  Both traces violate the claim's discipline. -/
theorem rate_limit_counterexample :
    scrapeEvents { forward := fun _ => none, georeverse := fun _ _ => none }
        [["a", "b", "c", "d", "e", "MAIN ST", "f"]] =
      [Event.forwardCall ("MAIN ST, Richmond, VA"), Event.sleep (11 / 10)]
    ∧ claimSleepDiscipline
        (scrapeEvents { forward := fun _ => none, georeverse := fun _ _ => none }
          [["a", "b", "c", "d", "e", "MAIN ST", "f"]]) = false
    ∧ scrapeEvents { forward := fun _ => none, georeverse := fun _ _ => none }
        [["a", "b", "c", "d", "e", "LL(-77:25:30,37:32:12)", "f"]] = [Event.reverseCall]
    ∧ claimSleepDiscipline
        (scrapeEvents { forward := fun _ => none, georeverse := fun _ _ => none }
          [["a", "b", "c", "d", "e", "LL(-77:25:30,37:32:12)", "f"]]) = false := by
  refine ⟨by with_unfolding_all rfl, by with_unfolding_all rfl,
    by with_unfolding_all rfl, by with_unfolding_all rfl⟩

/-- C2 (amended): the fixed 1.1 delay is executed once per fragment-path
record, after its forward-geocoding call and any follow-up reverse call (it
is the last event of the record, lines 189-193); records in the `LL(` branch
produce no sleep at all — in particular their reverse-geocoding call on a
successful decode is issued without any delay. -/
theorem rate_limit_sleep_after_calls_amended :
    (∀ (net : Net) (cells : List String) (a : String),
      normalizeLoc (cleanupS (mkBase cells).street) = NormalizedQuery.fragment a →
      (rowOutcome net cells).2 =
        (match net.forward (fullAddress a) with
         | some _ => [Event.forwardCall (fullAddress a), Event.reverseCall, Event.sleep (11 / 10)]
         | none => [Event.forwardCall (fullAddress a), Event.sleep (11 / 10)]))
    ∧ (∀ (net : Net) (cells : List String),
        (∀ a : String, normalizeLoc (cleanupS (mkBase cells).street) ≠ NormalizedQuery.fragment a) →
        ∀ e ∈ (rowOutcome net cells).2, isSleep e = false) := by
  constructor
  · intro net cells a h
    simp only [rowOutcome]
    rw [h]
    cases hf : net.forward (fullAddress a) with
    | some c => simp [hf]
    | none => simp [hf]
  · intro net cells h e he
    cases hn : normalizeLoc (cleanupS (mkBase cells).street) with
    | direct c =>
      simp only [rowOutcome] at he
      rw [hn] at he
      simp at he
      rw [he]
      rfl
    | failedLL =>
      simp only [rowOutcome] at he
      rw [hn] at he
      simp at he
    | fragment a => exact absurd hn (h a)

/-- C9: every row with at least 7 cells produces exactly one emitted
incident, in row order (the output is the per-row outcome mapped over the
filtered row list, so no row's failure affects any other row); and when
forward geocoding fails everywhere and the row is not resolved by the
direct-coordinate branch, the emitted incident has absent `lat`/`lng` and an
empty `nearest_intersection`. -/
theorem every_row_emits_one_incident :
    (∀ (net : Net) (rows : List (List String)),
      scrapeIncidents net rows =
        (rows.filter (fun r => 7 ≤ r.length)).map (fun r => (rowOutcome net r).1))
    ∧ (∀ (net : Net) (cells : List String),
        (∀ q, net.forward q = none) →
        (∀ c : Coords, normalizeLoc (cleanupS (mkBase cells).street) ≠ NormalizedQuery.direct c) →
        (rowOutcome net cells).1.lat = none ∧ (rowOutcome net cells).1.lng = none ∧
          (rowOutcome net cells).1.nearest_intersection = "") := by
  constructor
  · intro net rows
    induction rows with
    | nil => rfl
    | cons r rs ih =>
      have step : scrapeIncidents net (r :: rs) =
          (match processRow net r with
           | some p => p.1 :: scrapeIncidents net rs
           | none => scrapeIncidents net rs) := by
        unfold scrapeIncidents
        rw [List.filterMap_cons]
        cases processRow net r <;> simp
      by_cases h7 : 7 ≤ r.length
      · have hp : processRow net r = some (rowOutcome net r) := by
          unfold processRow
          rw [if_pos h7]
        rw [step, hp]
        simp [List.filter_cons, h7, ih]
      · have hp : processRow net r = none := by
          unfold processRow
          rw [if_neg h7]
        rw [step, hp]
        simp [List.filter_cons, h7, ih]
  · intro net cells h1 h2
    cases hn : normalizeLoc (cleanupS (mkBase cells).street) with
    | direct c => exact absurd hn (h2 c)
    | failedLL =>
      simp only [rowOutcome]
      rw [hn]
      simp [mkBase]
    | fragment a =>
      simp only [rowOutcome]
      rw [hn]
      simp [h1, mkBase]
